import Mathlib

/-!
Shallow embedding of `sts-rs` (src/src/main.rs), a minimal self-hosted
metrics recorder: an in-memory series store guarded by a mutex, an
actix background actor persisting each new point to a per-series CSV
file and invoking gnuplot, and a startup recovery procedure rebuilding
the store from the CSV files.

Modelling conventions:
- Rust `f64` values are carried opaquely as a type parameter `V`:
  none of the verified operations computes with a value, they only
  move values around and (in the worker) render them to text through
  an explicit `showV : V → String` parameter standing for the csv
  crate's float serializer.
- `i64` timestamps are Lean `Int`s; `i64::MIN` is the explicit
  constant `i64Min`.
- `chrono::DateTime<Utc>` instants are represented by their unix
  seconds (`Int`); `Utc.timestamp(secs, 0)` is `utcTimestamp`, which
  is `none` (a panic in Rust) outside chrono's representable range.
- `HashMap` and the file system are association lists consulted only
  through `assocGet`; inserting a key at the head shadows any older
  binding, which gives exactly the `HashMap::insert` lookup
  semantics.
- A Rust `panic!`/`unwrap` failure is `Option.none` (or the explicit
  `DiskOutcome.aborted` in the fault-injected persistence model).
-/

namespace StsRs

/-- Model of `Datum` from main.rs: `{ timeStamp: i64, value: f64 }`, with the
`f64` carried opaquely as `V`. -/
structure Datum (V : Type) where
  timeStamp : Int
  value : V
  deriving Repr, DecidableEq

/-- Model of `Series` from main.rs: the accumulated data in insertion order and
the `last_modification_time : DateTime<Utc>` instant (modelled as unix
seconds). -/
structure Series (V : Type) where
  data : List (Datum V)
  last_modification_time : Int
  deriving Repr, DecidableEq

/-- The `HashMap<String, Series>` inside `AppState.series`, modelled as
an association list read through `assocGet` (head binding wins, as for
`HashMap::insert`). -/
abbrev Store (V : Type) : Type := List (String × Series V)

/-- Lookup in an association list: the model of `HashMap::get` /
`HashMap::get_mut` key lookup (first, i.e. most recently inserted,
binding for the key). -/
def assocGet {α : Type} (k : String) : List (String × α) → Option α
  | [] => none
  | (k₂, v) :: rest => if k = k₂ then some v else assocGet k rest

/-- The constant `i64::MIN`, the initial value of `last_modified` in
`read_csv_data`. -/
def i64Min : Int := -(2 ^ 63)

/-- Unix-second lower bound of chrono 0.4's representable
`DateTime<Utc>` range (year -262144); `Utc.timestamp` panics below
it. -/
def chronoMinTs : Int := -8334632851200

/-- Unix-second upper bound of chrono 0.4's representable
`DateTime<Utc>` range (year 262143); `Utc.timestamp` panics above
it. -/
def chronoMaxTs : Int := 8210298412799

/-- Modelled from chrono 0.4: `Utc.timestamp(secs, 0)` (used at
main.rs:203 and main.rs:263). It returns the instant (identified with
its unix seconds) when `secs` is inside the representable datetime
range and panics (`none`) otherwise — chrono's `timestamp` is
`timestamp_opt(..).unwrap()`. -/
def utcTimestamp (secs : Int) : Option Int :=
  if chronoMinTs ≤ secs ∧ secs ≤ chronoMaxTs then some secs else none

/-- The store mutation of `add_datum` (main.rs:205-219), executed under
the store mutex: if the series exists, push the datum at the end of
its data (its `last_modification_time` is not touched); otherwise
insert a fresh series holding just the datum with
`last_modification_time := Utc::now()` (the external clock reading is
the `now` parameter). Returns the mutated store together with
`current_values`, the snapshot `series.data.to_vec()` taken under the
same lock. -/
def addDatum {V : Type} (now : Int) (name : String) (d : Datum V)
    (st : Store V) : Store V × List (Datum V) :=
  match assocGet name st with
  | some s =>
      ((name, { s with data := s.data ++ [d] }) :: st, s.data ++ [d])
  | none =>
      ((name, ⟨[d], now⟩) :: st, [d])

/-- Model of `get_series` (main.rs:184-196) as seen through the store: `some
count` renders the 200 response "Series {name} has {count} values.",
`none` renders the 404 empty response. -/
def getSeries {V : Type} (name : String) (st : Store V) : Option Nat :=
  (assocGet name st).map (fun s => s.data.length)

/-- Points currently held for `name` (empty when the series is
absent); a convenience projection used to state the theorems. -/
def dataOf {V : Type} (name : String) (st : Store V) : List (Datum V) :=
  ((assocGet name st).map Series.data).getD []

/-- A sequence of `add_datum` store mutations on one series name, each
with its own wall-clock reading. -/
def writeAll {V : Type} (name : String) (ws : List (Int × Datum V))
    (st : Store V) : Store V :=
  ws.foldl (fun s w => (addDatum w.1 name w.2 s).1) st

theorem assocGet_cons_self {α : Type} (k : String) (v : α)
    (l : List (String × α)) : assocGet k ((k, v) :: l) = some v := by
  simp [assocGet]

theorem assocGet_cons_ne {α : Type} {k k₂ : String} (v : α)
    (l : List (String × α)) (h : k ≠ k₂) :
    assocGet k ((k₂, v) :: l) = assocGet k l := by
  simp [assocGet, h]

theorem addDatum_dataOf {V : Type} (now : Int) (name : String)
    (d : Datum V) (st : Store V) :
    dataOf name (addDatum now name d st).1 = dataOf name st ++ [d] := by
  unfold addDatum dataOf
  cases h : assocGet name st with
  | none => simp [assocGet_cons_self, h]
  | some s => simp [assocGet_cons_self, h]

theorem addDatum_snapshot {V : Type} (now : Int) (name : String)
    (d : Datum V) (st : Store V) :
    (addDatum now name d st).2 = dataOf name st ++ [d] := by
  unfold addDatum dataOf
  cases h : assocGet name st <;> simp [h]

theorem addDatum_get {V : Type} (now : Int) (name : String)
    (d : Datum V) (st : Store V) :
    (assocGet name (addDatum now name d st).1).map Series.data =
      some (addDatum now name d st).2 := by
  unfold addDatum
  cases h : assocGet name st <;> simp [assocGet_cons_self, h]

theorem writeAll_dataOf {V : Type} (name : String)
    (ws : List (Int × Datum V)) (st : Store V) :
    dataOf name (writeAll name ws st) =
      dataOf name st ++ ws.map Prod.snd := by
  induction ws generalizing st with
  | nil => simp [writeAll]
  | cons w rest ih =>
      have h₁ : writeAll name (w :: rest) st =
          writeAll name rest (addDatum w.1 name w.2 st).1 := rfl
      rw [h₁, ih, addDatum_dataOf]
      simp

theorem writeAll_present {V : Type} (name : String)
    (ws : List (Int × Datum V)) (st : Store V) (h : ws ≠ []) :
    (assocGet name (writeAll name ws st)).map Series.data =
      some (dataOf name st ++ ws.map Prod.snd) := by
  induction ws generalizing st with
  | nil => exact absurd rfl h
  | cons w rest ih =>
      have h₁ : writeAll name (w :: rest) st =
          writeAll name rest (addDatum w.1 name w.2 st).1 := rfl
      cases rest with
      | nil =>
          rw [h₁]
          have h₂ := addDatum_get w.1 name w.2 st
          rw [addDatum_snapshot] at h₂
          simpa [writeAll] using h₂
      | cons w₂ rest₂ =>
          rw [h₁, ih _ (by simp), addDatum_dataOf]
          simp

/-- C1: the `add_datum` store mutation creates an absent series with
exactly the one new datum and appends at the end of a present one; the
returned snapshot is the full current point sequence of that series,
taken in the same critical section; and `N` successful writes to a
previously-unknown name make a subsequent `get_series` read report
count `N`. -/
theorem add_datum_c1 (V : Type) :
    (∀ (now : Int) (name : String) (d : Datum V) (st : Store V),
        (assocGet name (addDatum now name d st).1).map Series.data =
            some (addDatum now name d st).2 ∧
          (addDatum now name d st).2 = dataOf name st ++ [d]) ∧
    (∀ (name : String) (ws : List (Int × Datum V)) (st₀ : Store V),
        assocGet name st₀ = none → ws ≠ [] →
        getSeries name (writeAll name ws st₀) = some ws.length) := by
  refine ⟨fun now name d st => ⟨addDatum_get now name d st,
    addDatum_snapshot now name d st⟩, fun name ws st₀ h0 hne => ?_⟩
  have h₁ := writeAll_present name ws st₀ hne
  unfold getSeries
  cases h₂ : assocGet name (writeAll name ws st₀) with
  | none => rw [h₂] at h₁; simp at h₁
  | some s =>
      rw [h₂] at h₁
      have h₃ : s.data = dataOf name st₀ ++ ws.map Prod.snd := by
        simpa using h₁
      rw [Option.map_some', h₃]
      simp [dataOf, h0]

/-- Witness for C1 at a concrete two-write run. -/
theorem add_datum_c1_witness :
    getSeries "temp"
        (writeAll "temp" [(10, ⟨1610000000, 5⟩), (11, ⟨1610000001, 6⟩)]
          ([] : Store Int)) = some 2 := by
  refine (add_datum_c1 Int).2 "temp"
    [(10, ⟨1610000000, 5⟩), (11, ⟨1610000001, 6⟩)] [] rfl (by simp)

/-- The `WriteCsv` actor message (main.rs:83-86): the series name and
the point snapshot taken under the store lock. -/
structure WriteCsv (V : Type) where
  series_name : String
  data : List (Datum V)
  deriving Repr, DecidableEq

/-- The data directory of the `BackgroundActor`, modelled as an
association list from file name to the file's lines, read through
`assocGet` (head binding wins). -/
abbrev Fs : Type := List (String × List String)

/-- The file the worker appends to for a series
(main.rs:160-162: `data_storage_path.join(format!("{}.csv", name))`). -/
def csvFileName (name : String) : String := name ++ ".csv"

/-- One serialized CSV record of a `Datum`: the csv crate writes the
struct fields in declaration order, `<timeStamp>,<value>`, without a
header (`has_headers(false)`); `showV` stands for the crate's f64
serializer. -/
def fmtDatum {V : Type} (showV : V → String) (d : Datum V) : String :=
  toString d.timeStamp ++ "," ++ showV d.value

/-- Lines of a file, the empty list when it does not exist yet — the
worker opens with `create(true).append(true)`. -/
def fileLinesD (fs : Fs) (fname : String) : List String :=
  (assocGet fname fs).getD []

/-- Model of `append_last_datum` (main.rs:96-111) on the happy path: appends to
the file one serialized record for `data.last()` when the snapshot is
nonempty, nothing otherwise. -/
def appendLastDatum {V : Type} (showV : V → String) (file : List String)
    (data : List (Datum V)) : List String :=
  match data.getLast? with
  | some d => file ++ [fmtDatum showV d]
  | none => file

/-- Model of `Handler<WriteCsv> for BackgroundActor` (main.rs:152-166) on the
happy path, restricted to its effect on the data directory: append the
last snapshot element to `<series_name>.csv`. (The subsequent
`generate_plot` call only writes an image artifact via gnuplot and
never touches the data directory; the fault-sensitive versions of both
calls are modelled separately below.) -/
def handleWriteCsv {V : Type} (showV : V → String) (fs : Fs)
    (msg : WriteCsv V) : Fs :=
  (csvFileName msg.series_name,
    appendLastDatum showV (fileLinesD fs (csvFileName msg.series_name))
      msg.data) :: fs

/-- The persistence worker consuming its mailbox strictly in arrival
order (a single actix actor processes messages sequentially). -/
def workerRun {V : Type} (showV : V → String) (fs : Fs)
    (jobs : List (WriteCsv V)) : Fs :=
  jobs.foldl (handleWriteCsv showV) fs

/-- The shared state touched by `add_datum`: the mutex-guarded store
and the actor mailbox (FIFO, enqueue at the tail). -/
structure SysState (V : Type) where
  store : Store V
  queue : List (WriteCsv V)

/-- One whole `add_datum` critical section (main.rs:205-223): store
mutation, snapshot, and the `do_send` enqueue. The enqueue at
main.rs:220 runs while the `MutexGuard` `w` taken at main.rs:205 is
still live (it is dropped only when the handler returns), so
append-then-enqueue is a single atomic step per call and every
concurrent execution is equivalent to some sequence of these steps. -/
def addDatumSys {V : Type} (now : Int) (name : String) (d : Datum V)
    (s : SysState V) : SysState V :=
  let r := addDatum now name d s.store
  { store := r.1, queue := s.queue ++ [⟨name, r.2⟩] }

/-- A serialization of concurrent `add_datum` calls: each list element
is one critical section `(now, name, datum)` in lock-acquisition
order. -/
def runWrites {V : Type} (ws : List (Int × String × Datum V))
    (s : SysState V) : SysState V :=
  ws.foldl (fun s w => addDatumSys w.1 w.2.1 w.2.2 s) s

/-- The state at startup with no recovered series: empty store, empty
mailbox. -/
def emptySys (V : Type) : SysState V := ⟨[], []⟩

theorem addDatum_snapshot_ne_nil {V : Type} (now : Int) (name : String)
    (d : Datum V) (st : Store V) : (addDatum now name d st).2 ≠ [] := by
  unfold addDatum
  cases assocGet name st <;> simp

theorem handleWriteCsv_self {V : Type} (showV : V → String) (fs : Fs)
    (msg : WriteCsv V) :
    fileLinesD (handleWriteCsv showV fs msg)
        (csvFileName msg.series_name) =
      appendLastDatum showV
        (fileLinesD fs (csvFileName msg.series_name)) msg.data := by
  simp [handleWriteCsv, fileLinesD, assocGet_cons_self]

theorem handleWriteCsv_other {V : Type} (showV : V → String) (fs : Fs)
    (msg : WriteCsv V) (g : String)
    (h : g ≠ csvFileName msg.series_name) :
    assocGet g (handleWriteCsv showV fs msg) = assocGet g fs := by
  simp [handleWriteCsv, assocGet_cons_ne _ _ h]

/-- C2: processing a WriteJob with a nonempty snapshot (as every job
built by `add_datum` is — first conjunct) appends exactly one record,
the serialization `<unix_timestamp>,<value>` of the snapshot's last
element, at the end of the file named `<series_name>.csv`, and leaves
every other file untouched; no header line is ever produced. -/
theorem write_csv_c2 (V : Type) (showV : V → String) :
    (∀ (now : Int) (name : String) (d : Datum V) (st : Store V),
        (addDatum now name d st).2 ≠ []) ∧
    (∀ (fs : Fs) (msg : WriteCsv V) (h : msg.data ≠ []),
        fileLinesD (handleWriteCsv showV fs msg)
            (csvFileName msg.series_name) =
          fileLinesD fs (csvFileName msg.series_name) ++
            [fmtDatum showV (msg.data.getLast h)] ∧
        ∀ g : String, g ≠ csvFileName msg.series_name →
          assocGet g (handleWriteCsv showV fs msg) = assocGet g fs) := by
  refine ⟨addDatum_snapshot_ne_nil, fun fs msg h => ⟨?_, fun g hg =>
    handleWriteCsv_other showV fs msg g hg⟩⟩
  rw [handleWriteCsv_self]
  unfold appendLastDatum
  rw [List.getLast?_eq_getLast msg.data h]

/-- Witness for C2 at a concrete job. -/
theorem write_csv_c2_witness :
    fileLinesD
        (handleWriteCsv (fun v => v) [("temp.csv", ["1,2.0"])]
          ⟨"temp", [⟨1, "2.0"⟩, ⟨1610000000, "21.5"⟩]⟩)
        (csvFileName "temp") =
      ["1,2.0", "1610000000,21.5"] := by
  have h := (write_csv_c2 String (fun v => v)).2
    [("temp.csv", ["1,2.0"])] ⟨"temp", [⟨1, "2.0"⟩, ⟨1610000000, "21.5"⟩]⟩
    (by simp)
  rw [h.1]
  rfl

theorem csvFileName_inj {a b : String} (h : csvFileName a = csvFileName b) :
    a = b := by
  unfold csvFileName at h
  have hd : a.data ++ ".csv".data = b.data ++ ".csv".data := by
    have h₂ := congrArg String.data h
    simpa [String.data_append] using h₂
  exact String.ext (List.append_left_injective ".csv".data hd)

theorem addDatum_dataOf_ne {V : Type} (now : Int) {name n : String}
    (d : Datum V) (st : Store V) (h : name ≠ n) :
    dataOf name (addDatum now n d st).1 = dataOf name st := by
  unfold addDatum dataOf
  cases h₂ : assocGet n st <;> simp [assocGet_cons_ne _ _ h]

theorem workerRun_concat {V : Type} (showV : V → String) (fs : Fs)
    (jobs : List (WriteCsv V)) (j : WriteCsv V) :
    workerRun showV fs (jobs ++ [j]) =
      handleWriteCsv showV (workerRun showV fs jobs) j := by
  simp [workerRun, List.foldl_append]

/-- The log/store agreement invariant behind C3: once the worker has
drained the mailbox, the file of every series holds its pre-existing
lines followed by one record per in-memory point, in order. -/
def LogMatches {V : Type} (showV : V → String) (fs₀ : Fs)
    (s : SysState V) : Prop :=
  ∀ name : String,
    fileLinesD (workerRun showV fs₀ s.queue) (csvFileName name) =
      fileLinesD fs₀ (csvFileName name) ++
        (dataOf name s.store).map (fmtDatum showV)

theorem logMatches_step {V : Type} (showV : V → String) (fs₀ : Fs)
    (s : SysState V) (now : Int) (n : String) (d : Datum V)
    (hs : LogMatches showV fs₀ s) :
    LogMatches showV fs₀ (addDatumSys now n d s) := by
  intro name
  have hq : (addDatumSys now n d s).queue =
      s.queue ++ [⟨n, (addDatum now n d s.store).2⟩] := rfl
  have hst : (addDatumSys now n d s).store = (addDatum now n d s.store).1 :=
    rfl
  rw [hq, hst, workerRun_concat]
  by_cases hn : name = n
  · subst hn
    have h₁ := handleWriteCsv_self showV (workerRun showV fs₀ s.queue)
      (⟨name, (addDatum now name d s.store).2⟩ : WriteCsv V)
    rw [h₁, hs name, addDatum_dataOf, addDatum_snapshot]
    unfold appendLastDatum
    simp
  · have hne : csvFileName name ≠ csvFileName n := fun h => hn
      (csvFileName_inj h)
    have h₁ := handleWriteCsv_other showV (workerRun showV fs₀ s.queue)
      (⟨n, (addDatum now n d s.store).2⟩ : WriteCsv V)
      (csvFileName name) hne
    unfold fileLinesD
    rw [h₁, addDatum_dataOf_ne now d s.store hn]
    exact hs name

theorem logMatches_runWrites {V : Type} (showV : V → String) (fs₀ : Fs)
    (ws : List (Int × String × Datum V)) (s : SysState V)
    (hs : LogMatches showV fs₀ s) :
    LogMatches showV fs₀ (runWrites ws s) := by
  induction ws generalizing s with
  | nil => exact hs
  | cons w rest ih =>
      exact ih (addDatumSys w.1 w.2.1 w.2.2 s)
        (logMatches_step showV fs₀ s w.1 w.2.1 w.2.2 hs)

theorem runWrites_dataOf {V : Type} (name : String)
    (ws : List (Int × String × Datum V)) (s : SysState V) :
    dataOf name (runWrites ws s).store =
      dataOf name s.store ++
        (ws.filter (fun w => w.2.1 == name)).map (fun w => w.2.2) := by
  induction ws generalizing s with
  | nil => simp [runWrites]
  | cons w rest ih =>
      have h₁ : runWrites (w :: rest) s =
          runWrites rest (addDatumSys w.1 w.2.1 w.2.2 s) := rfl
      rw [h₁, ih]
      by_cases hn : w.2.1 = name
      · have hd : dataOf name (addDatumSys w.1 w.2.1 w.2.2 s).store =
            dataOf name s.store ++ [w.2.2] := by
          show dataOf name (addDatum w.1 w.2.1 w.2.2 s.store).1 = _
          rw [hn, addDatum_dataOf]
        rw [hd]
        simp [hn]
      · have hd : dataOf name (addDatumSys w.1 w.2.1 w.2.2 s).store =
            dataOf name s.store :=
          addDatum_dataOf_ne w.1 w.2.2 s.store (fun h => hn h.symm)
        rw [hd]
        simp [hn]

/-- C3: for every serialization of concurrent writers into
lock-acquisition order (faithful because the `do_send` enqueue at
main.rs:220 happens while the store `MutexGuard` of main.rs:205 is
still held, making append-then-enqueue one atomic step per call, and
the single background actor drains its mailbox in FIFO order), the
persisted record order of every series equals the order in which the
`add_datum` critical sections for that series completed, which is also
the in-memory point order. -/
theorem persisted_order_c3 (V : Type) (showV : V → String) (fs₀ : Fs)
    (ws : List (Int × String × Datum V)) (name : String) :
    fileLinesD
        (workerRun showV fs₀ (runWrites ws (emptySys V)).queue)
        (csvFileName name) =
      fileLinesD fs₀ (csvFileName name) ++
        (dataOf name (runWrites ws (emptySys V)).store).map
          (fmtDatum showV) ∧
    dataOf name (runWrites ws (emptySys V)).store =
      (ws.filter (fun w => w.2.1 == name)).map (fun w => w.2.2) := by
  constructor
  · refine logMatches_runWrites showV fs₀ ws (emptySys V) ?_ name
    intro g
    simp [emptySys, workerRun, dataOf, assocGet]
  · rw [runWrites_dataOf]
    simp [emptySys, dataOf, assocGet]

/-- Characters before the last `.` of a file name, `none` when it has
no dot — the splitting underlying Rust's `Path::file_stem`. -/
def beforeLastDot : List Char → Option (List Char)
  | [] => none
  | c :: rest =>
    match beforeLastDot rest with
    | some p => some (c :: p)
    | none => if c = '.' then some [] else none

/-- Modelled from Rust std: `Path::file_stem()` on a single normal
path component (`read_series` at main.rs:261 calls it on directory
entries). `""`, `"."` and `".."` have no file name (`none`, and the
subsequent `.unwrap()` would panic); a name without a dot, or whose
only dot is the leading one, is its own stem; otherwise the stem is
everything before the last dot. -/
def rustFileStem (name : String) : Option String :=
  if name.data = [] ∨ name.data = ['.'] ∨ name.data = ['.', '.'] then none
  else
    match beforeLastDot name.data with
    | none => some name
    | some [] => some name
    | some p => some ⟨p⟩

/-- The constant `i64::MAX`. -/
def i64Max : Int := 2 ^ 63 - 1

/-- Value of an ASCII digit. -/
def digitVal (c : Char) : Option Nat :=
  if '0' ≤ c ∧ c ≤ '9' then some (c.toNat - '0'.toNat) else none

/-- Decimal value of a digit run, `none` at the first non-digit. -/
def digitsValAux : List Char → Nat → Option Nat
  | [], acc => some acc
  | c :: rest, acc =>
    match digitVal c with
    | some d => digitsValAux rest (acc * 10 + d)
    | none => none

/-- Modelled from Rust core: `str::parse::<i64>` (used at main.rs:294
on the timestamp field) — an optional sign followed by at least one
ASCII digit, erring (`none`) on anything else or on a value outside
the i64 range. -/
def parseI64 (s : String) : Option Int :=
  let body : Bool × List Char :=
    match s.data with
    | '-' :: rest => (true, rest)
    | '+' :: rest => (false, rest)
    | cs => (false, cs)
  match body.2 with
  | [] => none
  | cs =>
    match digitsValAux cs 0 with
    | some n =>
        let v : Int := if body.1 then -(n : Int) else (n : Int)
        if i64Min ≤ v ∧ v ≤ i64Max then some v else none
    | none => none

/-- Helper for `splitComma`: the characters of the current field are
accumulated in reverse in `acc`. -/
def splitCommaAux : List Char → List Char → List String
  | [], acc => [⟨acc.reverse⟩]
  | c :: rest, acc =>
    if c = ',' then ⟨acc.reverse⟩ :: splitCommaAux rest []
    else splitCommaAux rest (c :: acc)

/-- Field splitting of one CSV record line at commas, as the csv
reader presents a record's fields through `record.get(i)`; the files
this program writes never contain quoted fields. -/
def splitComma (s : String) : List String := splitCommaAux s.data []

/-- One CSV record parsed as in `read_csv_data` (main.rs:292-303):
field 0 must parse as an i64 timestamp, field 1 as an f64 value
(`parseV` stands for `str::parse::<f64>`); a missing field or a parse
error is an `unwrap` panic (`none`). Extra fields are ignored, as by
`record.get(0)` / `record.get(1)`. -/
def parseRecord {V : Type} (parseTs : String → Option Int)
    (parseV : String → Option V) (line : String) : Option (Datum V) :=
  match splitComma line with
  | t :: v :: _ =>
    match parseTs t with
    | some ts =>
      match parseV v with
      | some value => some (⟨ts, value⟩ : Datum V)
      | none => none
    | none => none
  | _ => none

/-- The running `last_modified` maximum of `read_csv_data`
(main.rs:285, 296-298): starts at `i64::MIN` and takes each record's
timestamp when strictly larger. -/
def lastModifiedOf {V : Type} (data : List (Datum V)) : Int :=
  data.foldl
    (fun lm d => if lm < d.timeStamp then d.timeStamp else lm) i64Min

/-- Model of `read_csv_data` (main.rs:284-306): parse every record of the file
in order (the csv reader skips empty lines), returning the data
together with the maximum timestamp seen; any record failure is a
panic (`none`). -/
def readCsvData {V : Type} (parseTs : String → Option Int)
    (parseV : String → Option V) (lines : List String) :
    Option (List (Datum V) × Int) :=
  match (lines.filter (fun l => !(l == ""))).mapM
      (parseRecord parseTs parseV) with
  | some data => some (data, lastModifiedOf data)
  | none => none

/-- Processing of one directory entry in `read_series`
(main.rs:260-271): take the file stem as the series name, parse the
file, convert the maximum timestamp with `Utc.timestamp` — each
`unwrap` (and `Utc.timestamp` itself) panicking as `none`. -/
def readOne {V : Type} (parseTs : String → Option Int)
    (parseV : String → Option V) (file : String × List String) :
    Option (String × Series V) :=
  match rustFileStem file.1 with
  | none => none
  | some stem =>
    match readCsvData parseTs parseV file.2 with
    | none => none
    | some dl =>
      match utcTimestamp dl.2 with
      | none => none
      | some dt => some (stem, ⟨dl.1, dt⟩)

/-- The `read_series` loop (main.rs:253-282) over the regular files of
the data directory (each given as name and lines), inserting each
recovered series into the accumulator map; a panic anywhere aborts
startup (`none`). -/
def readSeriesAux {V : Type} (parseTs : String → Option Int)
    (parseV : String → Option V) (st : Store V) :
    List (String × List String) → Option (Store V)
  | [] => some st
  | f :: rest =>
    match readOne parseTs parseV f with
    | some e => readSeriesAux parseTs parseV (e :: st) rest
    | none => none

/-- Model of `read_series` (main.rs:253-282): rebuild the store from the data
directory's regular files. -/
def readSeries {V : Type} (parseTs : String → Option Int)
    (parseV : String → Option V) (files : List (String × List String)) :
    Option (Store V) :=
  readSeriesAux parseTs parseV [] files

theorem assocGet_mem {α : Type} {k : String} {v : α}
    {l : List (String × α)} (h : assocGet k l = some v) : (k, v) ∈ l := by
  induction l with
  | nil => simp [assocGet] at h
  | cons e rest ih =>
      obtain ⟨k₂, v₂⟩ := e
      by_cases hk : k = k₂
      · subst hk
        rw [assocGet_cons_self] at h
        simp [Option.some.inj h]
      · rw [assocGet_cons_ne _ _ hk] at h
        exact List.mem_cons_of_mem _ (ih h)

theorem readCsvData_snd {V : Type} {parseTs : String → Option Int}
    {parseV : String → Option V} {lines : List String}
    {dl : List (Datum V) × Int}
    (h : readCsvData parseTs parseV lines = some dl) :
    dl.2 = lastModifiedOf dl.1 := by
  unfold readCsvData at h
  split at h
  · cases Option.some.inj h
    rfl
  · exact Option.noConfusion h

theorem lastModifiedOf_nil (V : Type) :
    lastModifiedOf ([] : List (Datum V)) = i64Min := rfl

theorem readOne_data_ne_nil {V : Type} {parseTs : String → Option Int}
    {parseV : String → Option V} {f : String × List String}
    {e : String × Series V} (h : readOne parseTs parseV f = some e) :
    e.2.data ≠ [] := by
  unfold readOne at h
  cases hstem : rustFileStem f.1 with
  | none => simp only [hstem] at h; exact Option.noConfusion h
  | some stem =>
  simp only [hstem] at h
  cases hdl : readCsvData parseTs parseV f.2 with
  | none => simp only [hdl] at h; exact Option.noConfusion h
  | some dl =>
  simp only [hdl] at h
  cases hdt : utcTimestamp dl.2 with
  | none => simp only [hdt] at h; exact Option.noConfusion h
  | some dt =>
  simp only [hdt] at h
  have he : (stem, (⟨dl.1, dt⟩ : Series V)) = e := Option.some.inj h
  intro hnil
  have hdata : dl.1 = [] := by
    have h₂ : e.2.data = dl.1 := by rw [← he]
    rw [← h₂]
    exact hnil
  have hlm : dl.2 = lastModifiedOf dl.1 := readCsvData_snd hdl
  rw [hlm, hdata, lastModifiedOf_nil] at hdt
  unfold utcTimestamp at hdt
  rw [if_neg (by decide)] at hdt
  exact Option.noConfusion hdt

theorem readSeriesAux_mem {V : Type} {parseTs : String → Option Int}
    {parseV : String → Option V} {st st' : Store V}
    {files : List (String × List String)}
    (h : readSeriesAux parseTs parseV st files = some st') :
    ∀ e ∈ st', e ∈ st ∨ ∃ f ∈ files, readOne parseTs parseV f = some e := by
  induction files generalizing st with
  | nil =>
      intro e he
      have h₂ : st = st' := by
        simpa [readSeriesAux] using h
      exact Or.inl (h₂ ▸ he)
  | cons f rest ih =>
      intro e he
      unfold readSeriesAux at h
      cases hr : readOne parseTs parseV f with
      | none => rw [hr] at h; exact absurd h (by simp)
      | some e₂ =>
          rw [hr] at h
          rcases ih h e he with h₃ | ⟨g, hg, hge⟩
          · rcases List.mem_cons.mp h₃ with h₄ | h₄
            · exact Or.inr ⟨f, List.mem_cons_self f rest, h₄ ▸ hr⟩
            · exact Or.inl h₄
          · exact Or.inr ⟨g, List.mem_cons_of_mem _ hg, hge⟩

/-- C9: the store invariant "every present series holds at least one
point". Startup recovery can only produce stores satisfying it (an
empty log file would drive `last_modified = i64::MIN` into
`Utc.timestamp`, which panics, so recovery never completes with an
empty series); every `add_datum` store mutation preserves it (an
absent series is created with its first point); and a read of an
unknown name is a not-found response. -/
theorem store_invariant_c9 (V : Type) (parseTs : String → Option Int)
    (parseV : String → Option V) :
    (∀ (files : List (String × List String)) (st : Store V),
        readSeries parseTs parseV files = some st →
        ∀ (name : String) (s : Series V),
          assocGet name st = some s → s.data ≠ []) ∧
    (∀ (st : Store V),
        (∀ (name : String) (s : Series V),
            assocGet name st = some s → s.data ≠ []) →
        ∀ (now : Int) (name : String) (d : Datum V) (n₂ : String)
          (s₂ : Series V),
          assocGet n₂ (addDatum now name d st).1 = some s₂ →
          s₂.data ≠ []) ∧
    (∀ (st : Store V) (name : String),
        assocGet name st = none → getSeries name st = none) := by
  refine ⟨fun files st hr name s hget => ?_, fun st hinv now name d n₂ s₂ hget => ?_,
    fun st name h => by simp [getSeries, h]⟩
  · rcases readSeriesAux_mem hr (name, s) (assocGet_mem hget) with h₂ | ⟨f, _, hf⟩
    · simp at h₂
    · exact readOne_data_ne_nil hf
  · unfold addDatum at hget
    cases hs : assocGet name st with
    | some s =>
        rw [hs] at hget
        by_cases hn : n₂ = name
        · subst hn
          rw [assocGet_cons_self] at hget
          have h₂ : s₂.data = s.data ++ [d] := by
            rw [← Option.some.inj hget]
          simp [h₂]
        · rw [assocGet_cons_ne _ _ hn] at hget
          exact hinv n₂ s₂ hget
    | none =>
        rw [hs] at hget
        by_cases hn : n₂ = name
        · subst hn
          rw [assocGet_cons_self] at hget
          have h₂ : s₂.data = [d] := by
            rw [← Option.some.inj hget]
          simp [h₂]
        · rw [assocGet_cons_ne _ _ hn] at hget
          exact hinv n₂ s₂ hget

/-- Witness for C9: a one-file directory recovers to a nonempty
series, and a fresh store read returns not-found. -/
theorem store_invariant_c9_witness :
    Series.data (⟨[⟨5, (1 : Int)⟩], 5⟩ : Series Int) ≠ [] ∧
    getSeries "missing" ([] : Store Int) = none := by
  constructor
  · exact (store_invariant_c9 Int parseI64 parseI64).1
      [("a.csv", ["5,1"])] [("a", ⟨[⟨5, 1⟩], 5⟩)] (by decide) "a" _ (by decide)
  · exact (store_invariant_c9 Int parseI64 parseI64).2.2 [] "missing" rfl

theorem readSeriesAux_isSome {V : Type} (parseTs : String → Option Int)
    (parseV : String → Option V) (files : List (String × List String))
    (st : Store V) :
    (readSeriesAux parseTs parseV st files).isSome = true ↔
      ∀ f ∈ files, (readOne parseTs parseV f).isSome = true := by
  induction files generalizing st with
  | nil => simp [readSeriesAux]
  | cons f rest ih =>
      unfold readSeriesAux
      cases hr : readOne parseTs parseV f with
      | none => simp [hr]
      | some e => simp [hr, ih]

theorem readSeriesAux_success {V : Type} (parseTs : String → Option Int)
    (parseV : String → Option V) (files : List (String × List String))
    (st : Store V)
    (h : ∀ f ∈ files, (readOne parseTs parseV f).isSome = true) :
    readSeriesAux parseTs parseV st files =
      some ((files.filterMap (readOne parseTs parseV)).reverse ++ st) := by
  induction files generalizing st with
  | nil => simp [readSeriesAux]
  | cons f rest ih =>
      unfold readSeriesAux
      cases hr : readOne parseTs parseV f with
      | none =>
          have h₂ := h f (List.mem_cons_self f rest)
          rw [hr] at h₂
          simp at h₂
      | some e =>
          show readSeriesAux parseTs parseV (e :: st) rest = _
          rw [ih (e :: st) (fun g hg => h g (List.mem_cons_of_mem f hg))]
          simp [List.filterMap_cons, hr]

theorem assocGet_of_mem {α : Type} {k : String} {v : α}
    {l : List (String × α)} (hnd : (l.map Prod.fst).Nodup)
    (hm : (k, v) ∈ l) : assocGet k l = some v := by
  induction l with
  | nil => simp at hm
  | cons e rest ih =>
      obtain ⟨k₂, v₂⟩ := e
      rcases List.mem_cons.mp hm with h₂ | h₂
      · cases h₂
        exact assocGet_cons_self k v rest
      · have hk : k ≠ k₂ := by
          intro hkk
          subst hkk
          have : k ∈ rest.map Prod.fst :=
            List.mem_map.mpr ⟨(k, v), h₂, rfl⟩
          exact (List.nodup_cons.mp hnd).1 this
        rw [assocGet_cons_ne _ _ hk]
        exact ih (List.nodup_cons.mp hnd).2 h₂

theorem assocGet_eq_none_iff {α : Type} (k : String)
    (l : List (String × α)) :
    assocGet k l = none ↔ k ∉ l.map Prod.fst := by
  induction l with
  | nil => simp [assocGet]
  | cons e rest ih =>
      obtain ⟨k₂, v₂⟩ := e
      by_cases hk : k = k₂
      · subst hk
        simp [assocGet_cons_self]
      · rw [assocGet_cons_ne _ _ hk]
        simp [ih, hk]

theorem assocGet_of_perm {α : Type} {l₁ l₂ : List (String × α)}
    (hp : List.Perm l₁ l₂) (hnd : (l₁.map Prod.fst).Nodup)
    (k : String) : assocGet k l₁ = assocGet k l₂ := by
  have hnd₂ : (l₂.map Prod.fst).Nodup :=
    ((hp.map Prod.fst).nodup_iff).mp hnd
  cases h₁ : assocGet k l₁ with
  | some v =>
      have hm₂ : (k, v) ∈ l₂ := hp.mem_iff.mp (assocGet_mem h₁)
      rw [assocGet_of_mem hnd₂ hm₂]
  | none =>
      rw [assocGet_eq_none_iff] at h₁
      have h₂ : assocGet k l₂ = none := by
        rw [assocGet_eq_none_iff]
        intro hm
        exact h₁ ((hp.map Prod.fst).mem_iff.mpr hm)
      rw [h₂]

/-- C8: recovery is deterministic in the log directory — over any two
directory scans listing the same unmodified files (in whatever order
`read_dir` yields them), `read_series` fails on the same directories,
and on success produces stores with the same series names, point
sequences (hence counts) and `last_modified` values; the hypothesis
that the recovered stems are pairwise distinct holds for every
directory written by the persistence worker, whose file names are
`<name>.csv`. -/
theorem recovery_c8 (V : Type) (parseTs : String → Option Int)
    (parseV : String → Option V)
    (files₁ files₂ : List (String × List String))
    (hperm : List.Perm files₁ files₂)
    (hnd : ((files₁.filterMap (readOne parseTs parseV)).map
      Prod.fst).Nodup) :
    ((readSeries parseTs parseV files₁).isSome =
      (readSeries parseTs parseV files₂).isSome) ∧
    ∀ (st₁ st₂ : Store V),
      readSeries parseTs parseV files₁ = some st₁ →
      readSeries parseTs parseV files₂ = some st₂ →
      ∀ name : String, assocGet name st₁ = assocGet name st₂ := by
  constructor
  · have h₁ := readSeriesAux_isSome parseTs parseV files₁ []
    have h₂ := readSeriesAux_isSome parseTs parseV files₂ []
    by_cases hall : ∀ f ∈ files₁, (readOne parseTs parseV f).isSome = true
    · have hall₂ : ∀ f ∈ files₂, (readOne parseTs parseV f).isSome = true :=
        fun f hf => hall f (hperm.mem_iff.mpr hf)
      show (readSeriesAux parseTs parseV [] files₁).isSome =
        (readSeriesAux parseTs parseV [] files₂).isSome
      rw [h₁.mpr hall, h₂.mpr hall₂]
    · have hall₂ : ¬ ∀ f ∈ files₂, (readOne parseTs parseV f).isSome = true :=
        fun hc => hall (fun f hf => hc f (hperm.mem_iff.mp hf))
      show (readSeriesAux parseTs parseV [] files₁).isSome =
        (readSeriesAux parseTs parseV [] files₂).isSome
      cases hb₁ : (readSeriesAux parseTs parseV [] files₁).isSome with
      | false =>
          cases hb₂ : (readSeriesAux parseTs parseV [] files₂).isSome with
          | false => rfl
          | true => exact absurd (h₂.mp hb₂) hall₂
      | true => exact absurd (h₁.mp hb₁) hall
  · intro st₁ st₂ h₁ h₂ name
    have hall₁ : ∀ f ∈ files₁, (readOne parseTs parseV f).isSome = true := by
      refine (readSeriesAux_isSome parseTs parseV files₁ []).mp ?_
      show (readSeries parseTs parseV files₁).isSome = true
      rw [h₁]
      rfl
    have hall₂ : ∀ f ∈ files₂, (readOne parseTs parseV f).isSome = true :=
      fun f hf => hall₁ f (hperm.mem_iff.mpr hf)
    have he₁ : st₁ = (files₁.filterMap (readOne parseTs parseV)).reverse := by
      have h₃ := readSeriesAux_success parseTs parseV files₁ [] hall₁
      rw [show readSeries parseTs parseV files₁ =
        readSeriesAux parseTs parseV [] files₁ from rfl, h₃] at h₁
      simpa using (Option.some.inj h₁).symm
    have he₂ : st₂ = (files₂.filterMap (readOne parseTs parseV)).reverse := by
      have h₃ := readSeriesAux_success parseTs parseV files₂ [] hall₂
      rw [show readSeries parseTs parseV files₂ =
        readSeriesAux parseTs parseV [] files₂ from rfl, h₃] at h₂
      simpa using (Option.some.inj h₂).symm
    have hperm' : List.Perm st₁ st₂ := by
      rw [he₁, he₂]
      exact ((files₁.filterMap (readOne parseTs parseV)).reverse_perm.trans
        (hperm.filterMap (readOne parseTs parseV))).trans
        (files₂.filterMap (readOne parseTs parseV)).reverse_perm.symm
    have hnd₁ : (st₁.map Prod.fst).Nodup := by
      rw [he₁, List.map_reverse, List.nodup_reverse]
      exact hnd
    exact assocGet_of_perm hperm' hnd₁ name

/-- Witness for C8 at a two-file directory listed in both orders. -/
theorem recovery_c8_witness :
    List.Perm [("a.csv", ["5,1"]), ("b.csv", ["7,2"])]
      [("b.csv", ["7,2"]), ("a.csv", ["5,1"])] ∧
    (([("a.csv", ["5,1"]), ("b.csv", ["7,2"])].filterMap
      (readOne parseI64 parseI64)).map Prod.fst).Nodup ∧
    assocGet "a"
        ([("b", ⟨[⟨7, 2⟩], 7⟩), ("a", ⟨[⟨5, 1⟩], 5⟩)] : Store Int) =
      assocGet "a"
        ([("a", ⟨[⟨5, 1⟩], 5⟩), ("b", ⟨[⟨7, 2⟩], 7⟩)] : Store Int) := by
  refine ⟨by decide, by decide, ?_⟩
  exact (recovery_c8 Int parseI64 parseI64
    [("a.csv", ["5,1"]), ("b.csv", ["7,2"])]
    [("b.csv", ["7,2"]), ("a.csv", ["5,1"])] (by decide) (by decide)).2
    [("b", ⟨[⟨7, 2⟩], 7⟩), ("a", ⟨[⟨5, 1⟩], 5⟩)]
    [("a", ⟨[⟨5, 1⟩], 5⟩), ("b", ⟨[⟨7, 2⟩], 7⟩)]
    (by decide) (by decide) "a"

theorem beforeLastDot_append_csv (l : List Char) :
    beforeLastDot (l ++ ['.', 'c', 's', 'v']) = some l := by
  induction l with
  | nil => rfl
  | cons c rest ih => simp [beforeLastDot, ih]

theorem rustFileStem_csv (X : String) (hX : X ≠ "") :
    rustFileStem (csvFileName X) = some X := by
  have hdata : (csvFileName X).data = X.data ++ ['.', 'c', 's', 'v'] := by
    show (X ++ ".csv").data = _
    rw [String.data_append]
  cases hXd : X.data with
  | nil =>
      have hXe : X = "" := by
        apply String.ext
        rw [hXd]
      exact absurd hXe hX
  | cons c cs =>
      have hcond :
          ¬(((c :: cs) ++ ['.', 'c', 's', 'v'] : List Char) = [] ∨
            ((c :: cs) ++ ['.', 'c', 's', 'v'] : List Char) = ['.'] ∨
            ((c :: cs) ++ ['.', 'c', 's', 'v'] : List Char) = ['.', '.']) := by
        intro hor
        rcases hor with h | h | h <;>
          · have hlen := congrArg List.length h
            simp at hlen
      unfold rustFileStem
      rw [hdata, hXd, if_neg hcond, beforeLastDot_append_csv]
      show some (String.mk (c :: cs)) = some X
      rw [← hXd]

theorem readOne_fst {V : Type} {parseTs : String → Option Int}
    {parseV : String → Option V} {fname : String} {lines : List String}
    {e : String × Series V}
    (h : readOne parseTs parseV (fname, lines) = some e) :
    rustFileStem fname = some e.1 := by
  unfold readOne at h
  cases hstem : rustFileStem fname with
  | none => simp only [hstem] at h; exact Option.noConfusion h
  | some stem =>
  simp only [hstem] at h
  cases hdl : readCsvData parseTs parseV lines with
  | none => simp only [hdl] at h; exact Option.noConfusion h
  | some dl =>
  simp only [hdl] at h
  cases hdt : utcTimestamp dl.2 with
  | none => simp only [hdt] at h; exact Option.noConfusion h
  | some dt =>
  simp only [hdt] at h
  have he : (stem, (⟨dl.1, dt⟩ : Series V)) = e := Option.some.inj h
  rw [← he]

/-- C10: the worker persists series `X` to the file named `X.csv`
(definitionally, `csvFileName`), recovery keys the rebuilt series by
that file's stem, and for every nonempty series name the stem of
`X.csv` is exactly `X` — so a series persisted at runtime is recovered
under the same name after restart. -/
theorem naming_roundtrip_c10 (V : Type) (parseTs : String → Option Int)
    (parseV : String → Option V) (X : String) (hX : X ≠ "") :
    rustFileStem (csvFileName X) = some X ∧
    ∀ (lines : List String) (e : String × Series V),
      readOne parseTs parseV (csvFileName X, lines) = some e →
      e.1 = X := by
  refine ⟨rustFileStem_csv X hX, fun lines e h => ?_⟩
  have h₂ := readOne_fst h
  rw [rustFileStem_csv X hX] at h₂
  exact (Option.some.inj h₂).symm

/-- Witness for C10 at the series name of the spec's worked example. -/
theorem naming_roundtrip_c10_witness :
    ("temp" : String) ≠ "" ∧
    rustFileStem (csvFileName "temp") = some "temp" :=
  ⟨by decide, (naming_roundtrip_c10 Int parseI64 parseI64 "temp"
    (by decide)).1⟩

/-- C5 fails on the code: `add_datum` sets `last_modification_time`
only when it creates a series (main.rs:215) and never touches it when
appending to an existing one (main.rs:206-208). Here a series created
at wall-clock 100 still reports `last_modified = 100` after a second
successful ingestion at wall-clock 200 — the code contradicts the
field's own name and the index page that displays it as the series'
last-modified instant. (The recovery half of the claim — maximum
recovered timestamp — is what `readCsvData` computes, see
`lastModifiedOf`.) -/
theorem last_modified_stale_c5 :
    (assocGet "t"
        (addDatum 200 "t" ⟨1610000001, (2 : Int)⟩
          (addDatum 100 "t" ⟨1610000000, (1 : Int)⟩
            ([] : Store Int)).1).1).map
      Series.last_modification_time = some 100 ∧ (100 : Int) ≠ 200 := by
  exact ⟨by decide, by decide⟩

/-- Outcome of one POST write request as seen by the caller. -/
inductive WriteOutcome
  | rejected
  | panicked
  | accepted
  deriving Repr, DecidableEq

/-- The whole write path of one POST (main.rs:198-231).
`parsed` is the result of actix's `web::Json<Datum>` extraction, which
runs before the handler body: it fails (`none`, a client error) on a
malformed body, a timestamp that is not a valid i64, or a non-finite
value — JSON has no literal for NaN or infinities — so a rejected
request never reaches the store. When extraction succeeds,
`Utc.timestamp` runs first (main.rs:203, before the lock at
main.rs:205): its panic on an out-of-range timestamp yields an error
response with no store mutation and no WriteJob. Otherwise the atomic
append+enqueue (`addDatumSys`) runs and the handler returns its 200
response at once: the function never consults the persistence worker,
the mailbox contents or the file system before returning. -/
def handleWrite {V : Type} (now : Int) (name : String)
    (parsed : Option (Datum V)) (s : SysState V) :
    SysState V × WriteOutcome :=
  match parsed with
  | none => (s, .rejected)
  | some d =>
    match utcTimestamp d.timeStamp with
    | none => (s, .panicked)
    | some _ => (addDatumSys now name d s, .accepted)

/-- C6: when validation fails — JSON extraction of the datum fails, or
the timestamp is rejected by `Utc.timestamp` — the write is turned
down synchronously with the state (store and job queue) unchanged and
no WriteJob created; when it succeeds the handler performs the append,
enqueues exactly one WriteJob carrying the returned snapshot, and
returns immediately with the mutated state, independent of the
persistence worker. -/
theorem handle_write_c6 (V : Type) (now : Int) (name : String)
    (s : SysState V) :
    (handleWrite now name (none : Option (Datum V)) s =
      (s, .rejected)) ∧
    (∀ d : Datum V, utcTimestamp d.timeStamp = none →
        handleWrite now name (some d) s = (s, .panicked)) ∧
    (∀ (d : Datum V) (t : Int), utcTimestamp d.timeStamp = some t →
        handleWrite now name (some d) s =
          (addDatumSys now name d s, .accepted) ∧
        (addDatumSys now name d s).store =
          (addDatum now name d s.store).1 ∧
        (addDatumSys now name d s).queue =
          s.queue ++ [⟨name, (addDatum now name d s.store).2⟩]) := by
  refine ⟨rfl, fun d h => ?_, fun d t h => ⟨?_, rfl, rfl⟩⟩
  · simp [handleWrite, h]
  · simp [handleWrite, h]

/-- Witness for C6: an out-of-range timestamp is rejected with nothing
mutated, and a valid write is accepted. -/
theorem handle_write_c6_witness :
    handleWrite 0 "temp" (some (⟨i64Min, (0 : Int)⟩ : Datum Int))
        (emptySys Int) = (emptySys Int, .panicked) ∧
    handleWrite 0 "temp" (some (⟨1610000000, (21 : Int)⟩ : Datum Int))
        (emptySys Int) =
      (addDatumSys 0 "temp" ⟨1610000000, 21⟩ (emptySys Int),
        .accepted) :=
  ⟨(handle_write_c6 Int 0 "temp" (emptySys Int)).2.1
      ⟨i64Min, 0⟩ (by decide),
    ((handle_write_c6 Int 0 "temp" (emptySys Int)).2.2
      ⟨1610000000, 21⟩ 1610000000 (by decide)).1⟩

/-- Result of one worker-side disk or subprocess operation: either a
value, or the panic of an `unwrap`/`expect` (which unwinds the worker —
an unrecoverable abort, not a logged outcome). -/
inductive DiskOutcome (α : Type)
  | ok (value : α)
  | aborted
  deriving Repr, DecidableEq

/-- Fault injection for `append_last_datum`: whether the open
(main.rs:102-103), the record write (main.rs:108) and the flush
(main.rs:110) fail. -/
structure DiskFaults where
  openFails : Bool
  writeFails : Bool
  flushFails : Bool
  deriving Repr, DecidableEq

/-- Model of `append_last_datum` (main.rs:96-111) with its I/O outcomes made
explicit: every failing operation is hit by `.unwrap()`, so any disk
fault panics the worker instead of producing a loggable result. -/
def appendLastDatumRun {V : Type} (showV : V → String) (f : DiskFaults)
    (file : List String) (data : List (Datum V)) :
    DiskOutcome (List String) :=
  if f.openFails then .aborted
  else
    match data.getLast? with
    | some d =>
        if f.writeFails then .aborted
        else if f.flushFails then .aborted
        else .ok (file ++ [fmtDatum showV d])
    | none => if f.flushFails then .aborted else .ok file

/-- The captured output of the gnuplot subprocess when it could be
spawned (std `process::Output`). -/
structure CmdOutput where
  success : Bool
  stdout : String
  stderr : String
  deriving Repr, DecidableEq

/-- Log levels used by `log_command_failure`. -/
inductive LogLevel
  | info
  | warn
  deriving Repr, DecidableEq

/-- The three log messages `log_command_failure` can emit. -/
inductive LogMsg
  | gnuplotStatus
  | gnuplotStdout
  | gnuplotStderr
  deriving Repr, DecidableEq

/-- Model of `log_command_failure` (main.rs:134-150): a warning for a non-zero
exit status, an info entry for captured stdout, a warning for captured
stderr — the logged, distinguishable surfacing of a plot failure. -/
def logCommandFailure (o : CmdOutput) : List (LogLevel × LogMsg) :=
  (if o.success then [] else [(.warn, .gnuplotStatus)]) ++
    (if o.stdout = "" then [] else [(.info, .gnuplotStdout)]) ++
    (if o.stderr = "" then [] else [(.warn, .gnuplotStderr)])

/-- Model of `generate_plot` (main.rs:113-132) with its subprocess outcome made
explicit: `spawn = none` models gnuplot being unspawnable (missing
executable), which hits `.expect("failed to execute process")` and
panics; a spawned process that exits non-zero is merely passed to
`log_command_failure`. -/
def generatePlotRun (spawn : Option CmdOutput) :
    DiskOutcome (List (LogLevel × LogMsg)) :=
  match spawn with
  | none => .aborted
  | some o => .ok (logCommandFailure o)

/-- C7 fails on the code: a failed open of the durable log and a
missing plotting executable are `unwrap`/`expect` panics — worker
aborts, nothing logged — contradicting "never aborts". -/
theorem worker_failures_c7_counterexample :
    appendLastDatumRun (fun v => v) ⟨true, false, false⟩ []
        [(⟨0, "0"⟩ : Datum String)] = .aborted ∧
    generatePlotRun none = .aborted := by
  exact ⟨by decide, rfl⟩

/-- C7 as amended: only the plot subprocess's own failure report
(non-zero exit status, stdout/stderr noise) is surfaced as logged,
distinguishable outcomes without aborting, and no worker outcome ever
rolls back the in-memory ingestion (the worker has no access to the
store); but a failed open/write/flush of the durable log, or an
unspawnable plotting executable, panics the worker thread via
`unwrap`/`expect` instead of being logged. -/
theorem worker_failures_c7 (V : Type) (showV : V → String) :
    (∀ o : CmdOutput,
        generatePlotRun (some o) = .ok (logCommandFailure o)) ∧
    (∀ o : CmdOutput, o.success = false →
        ((.warn, .gnuplotStatus) : LogLevel × LogMsg) ∈
          logCommandFailure o) ∧
    (∀ (f : DiskFaults) (file : List String) (data : List (Datum V)),
        f.openFails = false → f.writeFails = false →
        f.flushFails = false →
        appendLastDatumRun showV f file data =
          .ok (appendLastDatum showV file data)) ∧
    (∀ (f : DiskFaults) (file : List String) (data : List (Datum V)),
        f.openFails = true →
        appendLastDatumRun showV f file data = .aborted) ∧
    generatePlotRun none =
      (.aborted : DiskOutcome (List (LogLevel × LogMsg))) := by
  refine ⟨fun o => rfl, fun o h => ?_, fun f file data h₁ h₂ h₃ => ?_,
    fun f file data h₁ => ?_, rfl⟩
  · simp [logCommandFailure, h]
  · unfold appendLastDatumRun appendLastDatum
    rw [if_neg (by simp [h₁])]
    cases data.getLast? with
    | some d => simp [h₂, h₃]
    | none => simp [h₃]
  · unfold appendLastDatumRun
    rw [if_pos (by simp [h₁])]

/-- Witness for C7 (amended) at a concrete failing plot run and a
fault-free append. -/
theorem worker_failures_c7_witness :
    ((.warn, .gnuplotStatus) : LogLevel × LogMsg) ∈
      logCommandFailure ⟨false, "", "plot error"⟩ ∧
    appendLastDatumRun (fun v => v) ⟨false, false, false⟩ []
        [(⟨7, "1.5"⟩ : Datum String)] =
      .ok (appendLastDatum (fun v => v) [] [⟨7, "1.5"⟩]) :=
  ⟨(worker_failures_c7 String (fun v => v)).2.1
      ⟨false, "", "plot error"⟩ rfl,
    (worker_failures_c7 String (fun v => v)).2.2.1
      ⟨false, false, false⟩ [] [⟨7, "1.5"⟩] rfl rfl rfl⟩

end StsRs
